import Mathlib

/-!
Verification of the qsspp stylesheet preprocessor core (`src/qsspp/core.py`).

The Python core is embedded shallowly:

* Strings are Lean `String`s; scanning functions work on `List Char` and
  mirror the behaviour of the Python regular expressions used by the source
  (`_FUNC_RE`, `_VAR_DEF_RE`, `_VAR_USE_RE`, `_IMPORT_RE`) on the texts the
  claims are about.  Character classes are the ASCII readings of `\w`, `\s`
  and friends.
* Python floats are modelled by exact rationals.  To keep every definition
  kernel-executable the computational representation is an unnormalised
  fraction `PyRat` (numerator, positive denominator) and all arithmetic used
  by the pipeline is integer arithmetic; the spec-level real-number formulas
  are stated over `ℚ` in the theorems and bridged by lemmas.
* `int(x)` truncates toward zero (`Int.tdiv`), `round(x)` rounds half to
  even, exactly as CPython does on the exact values at issue.
* Fallible Python code (raised `ValueError` / `FileNotFoundError` /
  `RuntimeError`) becomes `Except QErr`.
* The filesystem touched by `_collect` is abstracted to a record `FS` of
  pure functions (path normalisation, relative resolution, reading), as the
  spec itself suggests; recursion over the import tree carries explicit fuel
  (CPython's recursion limit plays the same role in the source).
-/

/-- Error kinds surfaced by the embedded core, mirroring the exceptions the
Python source raises: `RuntimeError` for import cycles, `FileNotFoundError`
for a missing import target, `ValueError` for a bad colour (the crafted
`Invalid color: #...` message), a non-hex two-digit group (`int(_, 16)`
failure, naming the offending group), and a bad amount (`float(_)` failure,
naming the string passed to `float`). `overflow` stands for the
`OverflowError` the program raises when an infinite float reaches `int()`
or `round()`; the model raises it as soon as a float operation leaves the
finite binary64 range (see `pyFloat`), a difference in error placement only,
not in which inputs fail.  `readFail` stands for an `OSError` reading a
document and `fuelExhausted` for hitting the recursion limit; neither
occurs in any computation below. -/
inductive QErr where
  | importCycle (p : String)
  | fileNotFound (p : String)
  | readFail (p : String)
  | fuelExhausted
  | invalidColor (v : String)
  | intParse (v : String)
  | floatParse (v : String)
  | overflow
deriving DecidableEq

/-- Exact decimal value of a float literal, before CPython rounds it to the
nearest binary64 (`float(s)` parses correctly rounded, so the rounding is a
single step applied to this exact value).  The denominator is kept
positive; no normalisation happens, so all arithmetic on it stays
kernel-executable. -/
structure PyRat where
  num : ℤ
  den : ℤ
  den_pos : 0 < den

/-- Value of a `PyRat` as a rational number, for the spec-level statements. -/
def PyRat.toRat (f : PyRat) : ℚ := (f.num : ℚ) / (f.den : ℚ)

/-- Truncation toward zero of `p / d` (for `d > 0`): Python `int(x)` applied
to the float value `p / d`. -/
def pyTruncInt (p d : ℤ) : ℤ := Int.tdiv p d

/-- Round half to even of `p / d` (for `d > 0`): Python `round(x)` applied to
the float value `p / d`. -/
def pyRoundInt (p d : ℤ) : ℤ :=
  let q := p / d
  let r := p % d
  if 2 * r < d then q else if d < 2 * r then q + 1 else if q % 2 = 0 then q else q + 1

/-- Spec-level truncation toward zero on `ℚ` (what Python `int` does). -/
def truncQ (x : ℚ) : ℤ := if x < 0 then -⌊-x⌋ else ⌊x⌋

/-- Spec-level round half to even on `ℚ` (what Python `round` does). -/
def roundQ (x : ℚ) : ℤ :=
  if Int.fract x < 1 / 2 then ⌊x⌋
  else if 1 / 2 < Int.fract x then ⌊x⌋ + 1
  else if ⌊x⌋ % 2 = 0 then ⌊x⌋ else ⌊x⌋ + 1

/-- IEEE-754 binary64 value: `m * 2 ^ e` with a 53-bit significand.  A
CPython float is such a value; the pair is not required to be normalised
(all operations below depend only on the value). -/
structure F64 where
  m : ℤ
  e : ℤ
deriving DecidableEq

/-- Value of a binary64 float as a rational number, for the spec-level
statements. -/
def F64.toRat (x : F64) : ℚ := (x.m : ℚ) * (2 : ℚ) ^ x.e

/-- Number of binary digits, by fueled halving (the fuel is far beyond any
exponent the pipeline can produce). -/
def bitlenFuel : ℕ → ℕ → ℕ
  | 0, _ => 0
  | fuel + 1, n => if n = 0 then 0 else bitlenFuel fuel (n / 2) + 1

/-- Number of binary digits of a natural number. -/
def bitlen (n : ℕ) : ℕ := bitlenFuel 4200 n

/-- Round a positive rational `n / d` to the nearest binary64 (ties to
even), the IEEE-754 default CPython uses: locate the leading bit, fix the
quantum `2 ^ q` (with the subnormal floor at `2 ^ -1074`), round the
significand half-to-even in exact integer arithmetic, and overflow to
`none` (infinity) at `2 ^ 1024`. -/
def roundRatPos (n d : ℤ) : Option F64 :=
  let g : ℤ := (bitlen n.toNat : ℤ) - (bitlen d.toNat : ℤ)
  let mu : ℤ :=
    if (if 0 ≤ g then d * 2 ^ g.toNat ≤ n else d ≤ n * 2 ^ (-g).toNat) then g else g - 1
  let q : ℤ := max (mu - 52) (-1074)
  let N : ℤ := if 0 ≤ q then n else n * 2 ^ (-q).toNat
  let D : ℤ := if 0 ≤ q then d * 2 ^ q.toNat else d
  let s : ℤ := pyRoundInt N D
  if 0 < q ∧ (2 : ℤ) ^ 1024 ≤ s * 2 ^ q.toNat then none else some ⟨s, q⟩

/-- Round any rational `n / d` (`d > 0`) to the nearest binary64; rounding
is symmetric in the sign. -/
def roundQtoF64 (n d : ℤ) : Option F64 :=
  if n = 0 then some ⟨0, 0⟩
  else if 0 < n then roundRatPos n d
  else
    match roundRatPos (-n) d with
    | some x => some ⟨-x.m, x.e⟩
    | none => none

/-- Round the exact value `M * 2 ^ E` of a float operation back to a
binary64.  When the significand already fits in 53 bits and the exponent is
in range the value is exactly representable and returned as is (this is the
identity case of IEEE rounding, kept explicit so that proofs over symbolic
small operands can use it); otherwise the general rounding runs. -/
def roundPairF (M E : ℤ) : Option F64 :=
  if -(2 : ℤ) ^ 53 ≤ M ∧ M ≤ 2 ^ 53 ∧ -1074 ≤ E ∧ E ≤ 970 then some ⟨M, E⟩
  else if 0 ≤ E then roundQtoF64 (M * 2 ^ E.toNat) 1 else roundQtoF64 M (2 ^ (-E).toNat)

/-- CPython conversion of an `int` operand to a float (one rounding). -/
def intToF64 (k : ℤ) : Option F64 := roundPairF k 0

/-- Binary64 addition: exact sum, one rounding. -/
def flAdd (x y : F64) : Option F64 :=
  if x.e ≤ y.e then roundPairF (x.m + y.m * 2 ^ (y.e - x.e).toNat) x.e
  else roundPairF (x.m * 2 ^ (x.e - y.e).toNat + y.m) y.e

/-- Binary64 multiplication: exact product, one rounding. -/
def flMul (x y : F64) : Option F64 := roundPairF (x.m * y.m) (x.e + y.e)

/-- Binary64 division by the exact float `100.0` (the only division the
source performs): exact quotient, one rounding. -/
def flDiv100 (x : F64) : Option F64 :=
  if 0 ≤ x.e then roundQtoF64 (x.m * 2 ^ x.e.toNat) 100
  else roundQtoF64 x.m (100 * 2 ^ (-x.e).toNat)

/-- Python `int(x)` on a finite float: truncation toward zero (exact). -/
def truncIntF64 (x : F64) : ℤ :=
  if 0 ≤ x.e then x.m * 2 ^ x.e.toNat else pyTruncInt x.m (2 ^ (-x.e).toNat)

/-- Python `round(x)` on a finite float: half to even on the exact float
value. -/
def roundIntF64 (x : F64) : ℤ :=
  if 0 ≤ x.e then x.m * 2 ^ x.e.toNat else pyRoundInt x.m (2 ^ (-x.e).toNat)

/-- Float comparison `0 <= x`. -/
def F64.isNonneg (x : F64) : Bool := decide (0 ≤ x.m)

/-- Float comparison `x <= 1`. -/
def F64.leOne (x : F64) : Bool :=
  if 0 ≤ x.e then decide (x.m * 2 ^ x.e.toNat ≤ 1) else decide (x.m ≤ 2 ^ (-x.e).toNat)

/-- Whitespace test used for Python `str.strip` / `\s` (ASCII reading). -/
def isPySpace (c : Char) : Bool := c.isWhitespace

/-- Python `str.strip()` on a character list. -/
def pyStrip (cs : List Char) : List Char :=
  ((cs.dropWhile isPySpace).reverse.dropWhile isPySpace).reverse

/-- Python `str.strip()` on a `String`. -/
def pyStripStr (s : String) : String := String.mk (pyStrip s.data)

/-- Word character, the ASCII reading of the regex class `\w`. -/
def isWordChar (c : Char) : Bool := c.isAlpha || c.isDigit || c = '_'

/-- First character of an identifier, regex class `[A-Za-z_]`. -/
def isIdentStart (c : Char) : Bool := c.isAlpha || c = '_'

/-- Value of one hexadecimal digit, case insensitive. -/
def hexVal? (c : Char) : Option ℕ :=
  if '0' ≤ c ∧ c ≤ '9' then some (c.toNat - '0'.toNat)
  else if 'a' ≤ c ∧ c ≤ 'f' then some (c.toNat - 'a'.toNat + 10)
  else if 'A' ≤ c ∧ c ≤ 'F' then some (c.toNat - 'A'.toNat + 10)
  else none

/-- Tail of a hex digit run: CPython `int(s, 16)` allows a single underscore
between two digits. -/
def parseHexDigitsAux (acc : ℕ) : List Char → Option ℕ
  | [] => some acc
  | c :: rest =>
      if c = '_' then
        match rest with
        | [] => none
        | c2 :: rest2 =>
            match hexVal? c2 with
            | some d => parseHexDigitsAux (16 * acc + d) rest2
            | none => none
      else
        match hexVal? c with
        | some d => parseHexDigitsAux (16 * acc + d) rest
        | none => none

/-- Nonempty hex digit run, underscores only between digits. -/
def parseHexDigits (cs : List Char) : Option ℕ :=
  match cs with
  | [] => none
  | c :: rest =>
      if c = '_' then none
      else
        match hexVal? c with
        | some d => parseHexDigitsAux d rest
        | none => none

/-- Optional leading sign, as accepted by `int(_, 16)` and `float(_)`. -/
def stripSign (cs : List Char) : Bool × List Char :=
  match cs with
  | c :: rest => if c = '-' then (true, rest) else if c = '+' then (false, rest) else (false, cs)
  | [] => (false, [])

/-- Digits of `int(s, 16)` after the sign: an optional `0x` / `0X` base
prefix (possibly followed by one underscore) and then hex digits. -/
def pyIntHexCore (cs : List Char) : Option ℕ :=
  match cs with
  | c0 :: c1 :: rest =>
      if c0 = '0' ∧ (c1 = 'x' ∨ c1 = 'X') then
        match rest with
        | '_' :: rest2 => parseHexDigits rest2
        | _ => parseHexDigits rest
      else parseHexDigits cs
  | _ => parseHexDigits cs

/-- CPython `int(s, 16)`: surrounding whitespace, an optional sign, an
optional `0x` prefix, then hex digits with single underscores between
digits.  `none` models the `ValueError` it raises otherwise. -/
def pyIntHex (s : String) : Option ℤ :=
  let cs := pyStrip s.data
  let sd := stripSign cs
  match pyIntHexCore sd.2 with
  | some n => some (if sd.1 then -(n : ℤ) else (n : ℤ))
  | none => none

/-- Longest decimal digit run (underscores allowed between digits):
returns accumulated value, number of digits consumed and the rest. -/
def takeDecRunAux (v cnt : ℕ) : List Char → ℕ × ℕ × List Char
  | [] => (v, cnt, [])
  | c :: rest =>
      if c = '_' then
        match rest with
        | [] => (v, cnt, [ '_' ])
        | c2 :: rest2 =>
            if c2.isDigit ∧ cnt ≠ 0 then
              takeDecRunAux (10 * v + (c2.toNat - '0'.toNat)) (cnt + 1) rest2
            else (v, cnt, '_' :: c2 :: rest2)
      else if c.isDigit then takeDecRunAux (10 * v + (c.toNat - '0'.toNat)) (cnt + 1) rest
      else (v, cnt, c :: rest)

/-- Optional exponent part of a float literal; everything after the mantissa
must be consumed for the parse to succeed. -/
def pyExpPart (m : PyRat) : List Char → Option PyRat
  | [] => some m
  | c :: rest =>
      if c = 'e' ∨ c = 'E' then
        let sd := stripSign rest
        let t := takeDecRunAux 0 0 sd.2
        if t.2.1 = 0 ∨ t.2.2 ≠ [] then none
        else
          some (if sd.1 then
                  ⟨m.num, m.den * (10 : ℤ) ^ t.1, by
                    exact mul_pos m.den_pos (pow_pos (by norm_num) t.1)⟩
                else
                  ⟨m.num * (10 : ℤ) ^ t.1, m.den, m.den_pos⟩)
      else none

/-- Body of a float literal after sign removal:
`digits [. digits] [exponent]` or `. digits [exponent]`. -/
def pyFloatCore (cs : List Char) : Option PyRat :=
  let ti := takeDecRunAux 0 0 cs
  match ti.2.2 with
  | '.' :: r2 =>
      let tf := takeDecRunAux 0 0 r2
      if ti.2.1 = 0 ∧ tf.2.1 = 0 then none
      else
        pyExpPart ⟨(ti.1 : ℤ) * (10 : ℤ) ^ tf.2.1 + (tf.1 : ℤ), (10 : ℤ) ^ tf.2.1,
          pow_pos (by norm_num) tf.2.1⟩ tf.2.2
  | r1 =>
      if ti.2.1 = 0 then none else pyExpPart ⟨(ti.1 : ℤ), 1, by norm_num⟩ r1

/-- Exact decimal value of a float literal: surrounding whitespace,
optional sign, decimal mantissa with optional fraction part and exponent.
(`inf` / `nan` spellings are not modelled; no claim involves them.)
`none` models the `ValueError`. -/
def pyFloatDec (s : String) : Option PyRat :=
  let cs := pyStrip s.data
  let sd := stripSign cs
  match pyFloatCore sd.2 with
  | some q => some (if sd.1 then ⟨-q.num, q.den, q.den_pos⟩ else q)
  | none => none

/-- CPython `float(s)`: the decimal value of the literal, correctly rounded
to the nearest binary64 (ties to even).  `none` models the `ValueError` for
a malformed literal; a literal whose value rounds outside the finite range
is also mapped to `none` (the program returns an infinite float there and
only fails later, with an `OverflowError`, once the value reaches `int()` —
a difference in error placement for astronomically large amounts that no
claim touches). -/
def pyFloat (s : String) : Option F64 :=
  match pyFloatDec s with
  | some q => roundQtoF64 q.num q.den
  | none => none

/-- Python source `_parse_percent_or_float`: strip, then either a percent
value divided by `100.0` (one more float rounding) or a plain float used
directly as a fraction. -/
def _parse_percent_or_float (s : String) : Except QErr F64 :=
  let t := pyStrip s.data
  match t.getLast? with
  | some '%' =>
      let u := String.mk t.dropLast
      match pyFloat u with
      | some q =>
          match flDiv100 q with
          | some r => Except.ok r
          | none => Except.error QErr.overflow
      | none => Except.error (QErr.floatParse u)
  | _ =>
      match pyFloat (String.mk t) with
      | some q => Except.ok q
      | none => Except.error (QErr.floatParse (String.mk t))

/-- Normalisation a colour argument undergoes at the top of `_hex_to_rgb`:
strip, drop one leading `#` (`startswith` test), double each character of a
3-character form. -/
def normColor (s0 : String) : List Char :=
  let s1 := pyStrip s0.data
  let s2 := if s1.headD ' ' = '#' then s1.tail else s1
  if s2.length = 3 then s2.flatMap (fun c => [c, c]) else s2

/-- Python source `_hex_to_rgb`: strip, drop one leading `#`, double each
digit of a 3-character form, then require exactly 6 characters and parse the
three 2-character groups with `int(_, 16)`. -/
def _hex_to_rgb (s0 : String) : Except QErr (ℤ × ℤ × ℤ) :=
  let s3 := normColor s0
  if s3.length = 6 then
    let p1 := String.mk (s3.take 2)
    let p2 := String.mk ((s3.drop 2).take 2)
    let p3 := String.mk ((s3.drop 4).take 2)
    match pyIntHex p1 with
    | none => Except.error (QErr.intParse p1)
    | some r =>
        match pyIntHex p2 with
        | none => Except.error (QErr.intParse p2)
        | some g =>
            match pyIntHex p3 with
            | none => Except.error (QErr.intParse p3)
            | some b => Except.ok (r, g, b)
  else Except.error (QErr.invalidColor (String.mk ('#' :: s3)))

/-- Clamp a channel value to `[0, 255]`, as `_rgb_to_hex` does. -/
def clamp255 (n : ℤ) : ℤ := max 0 (min 255 n)

/-- Uppercase hexadecimal digit. -/
def hexDigitU (n : ℕ) : Char := "0123456789ABCDEF".data.getD n '0'

/-- Two uppercase hex digits of a clamped channel value (`"{:02X}"`). -/
def hex2 (n : ℤ) : List Char := [hexDigitU (n.toNat / 16), hexDigitU (n.toNat % 16)]

/-- Python source `_rgb_to_hex`: clamp each channel to `[0, 255]` and encode
as `#RRGGBB` with uppercase hex digits. -/
def _rgb_to_hex (r g b : ℤ) : String :=
  String.mk ('#' :: (hex2 (clamp255 r) ++ hex2 (clamp255 g) ++ hex2 (clamp255 b)))

/-- Float value of one `lighten` channel, `r + (255 - r) * f` evaluated as
CPython does: `255 - r` is exact integer arithmetic, the int operand of
each float operation is converted with one rounding, and the
multiplication and addition each round once. -/
def lightenFloat (r : ℤ) (f : F64) : Option F64 :=
  match intToF64 (255 - r) with
  | none => none
  | some k =>
      match flMul k f with
      | none => none
      | some p =>
          match intToF64 r with
          | none => none
          | some rf => flAdd rf p

/-- Float value of one `darken` channel, `r * (1 - f)` evaluated as CPython
does: the literal 1 converts to the float `1.0` exactly and negating a
float is exact, so `1 - f` is one rounded addition; then the converted `r`
multiplies with one rounding. -/
def darkenFloat (r : ℤ) (f : F64) : Option F64 :=
  match flAdd ⟨1, 0⟩ ⟨-f.m, f.e⟩ with
  | none => none
  | some omf =>
      match intToF64 r with
      | none => none
      | some rf => flMul rf omf

/-- Python source `_lighten`: each channel is `int(` the float computation
`)`; an infinite intermediate would make `int()` raise. -/
def _lighten (hex_color amt : String) : Except QErr String :=
  match _hex_to_rgb hex_color with
  | Except.error e => Except.error e
  | Except.ok (r, g, b) =>
      match _parse_percent_or_float amt with
      | Except.error e => Except.error e
      | Except.ok f =>
          match lightenFloat r f, lightenFloat g f, lightenFloat b f with
          | some xr, some xg, some xb =>
              Except.ok (_rgb_to_hex (truncIntF64 xr) (truncIntF64 xg) (truncIntF64 xb))
          | _, _, _ => Except.error QErr.overflow

/-- Python source `_darken`. -/
def _darken (hex_color amt : String) : Except QErr String :=
  match _hex_to_rgb hex_color with
  | Except.error e => Except.error e
  | Except.ok (r, g, b) =>
      match _parse_percent_or_float amt with
      | Except.error e => Except.error e
      | Except.ok f =>
          match darkenFloat r f, darkenFloat g f, darkenFloat b f with
          | some xr, some xg, some xb =>
              Except.ok (_rgb_to_hex (truncIntF64 xr) (truncIntF64 xg) (truncIntF64 xb))
          | _, _, _ => Except.error QErr.overflow

/-- Decimal rendering of the four `rgba` components, as the Python f-string
produces it. -/
def rgbaStr (r g b a : ℤ) : String :=
  "rgba(" ++ toString r ++ ", " ++ toString g ++ ", " ++ toString b ++ ", " ++ toString a ++ ")"

/-- Python source `_alpha`: the component is `int(round(a_val * 255))`, one
rounded float multiplication (255 converts to the float `255.0` exactly)
followed by the exact half-to-even `round`.  The source guards on
`0 <= a_val <= 1` but the else branch re-parses the same amount string and
applies the same formula, so both branches compute the same value. -/
def _alpha (hex_color a : String) : Except QErr String :=
  match _hex_to_rgb hex_color with
  | Except.error e => Except.error e
  | Except.ok (r, g, b) =>
      match _parse_percent_or_float a with
      | Except.error e => Except.error e
      | Except.ok f =>
          match flMul f ⟨255, 0⟩ with
          | none => Except.error QErr.overflow
          | some p =>
              let alpha_255 : ℤ :=
                if f.isNonneg && f.leOne then roundIntF64 p else roundIntF64 p
              Except.ok (rgbaStr r g b alpha_255)

/-- Function names recognised by `_FUNC_RE`. -/
inductive FuncName where
  | darken
  | lighten
  | alpha
deriving DecidableEq

/-- Python source `repl` inside `_apply_functions`: dispatch on the lowered
function name.  The regex alternation only ever captures one of the three
names, so the fall-through `return m.group(0)` of the source is dead. -/
def funcRepl (f : FuncName) (color amt : String) : Except QErr String :=
  match f with
  | FuncName.lighten => _lighten color amt
  | FuncName.darken => _darken color amt
  | FuncName.alpha => _alpha color amt

/-- Case-insensitive match of `name(` at the head of the text, for the three
names of `_FUNC_RE` (compiled with `re.IGNORECASE`).  Returns the function
and the characters after the opening parenthesis. -/
def matchNameCI (cs : List Char) : Option (FuncName × List Char) :=
  if (cs.take 7).map Char.toLower = "darken(".data then some (FuncName.darken, cs.drop 7)
  else if (cs.take 8).map Char.toLower = "lighten(".data then some (FuncName.lighten, cs.drop 8)
  else if (cs.take 6).map Char.toLower = "alpha(".data then some (FuncName.alpha, cs.drop 6)
  else none

/-- Split at the first occurrence of a character: the part before it and the
part after it. -/
def splitFirst (sep : Char) : List Char → Option (List Char × List Char)
  | [] => none
  | c :: cs =>
      if c = sep then some ([], cs)
      else
        match splitFirst sep cs with
        | none => none
        | some (a, b) => some (c :: a, b)

/-- Arguments of a function call, after the opening parenthesis:
`\s*([^,]+)\s*,\s*([^)]+)\)` of `_FUNC_RE`.  The first span runs to the
first comma, the second to the first closing parenthesis after it; both must
be nonempty, and `repl` strips both captures.  Returns the stripped colour
argument, the stripped amount argument and the text after the closing
parenthesis. -/
def parseArgs (cs : List Char) : Option (String × String × List Char) :=
  match splitFirst ',' cs with
  | none => none
  | some (span1, rest1) =>
      if span1 = [] then none
      else
        match splitFirst ')' rest1 with
        | none => none
        | some (span2, rest2) =>
            if span2 = [] then none
            else some (String.mk (pyStrip span1), String.mk (pyStrip span2), rest2)

/-- One pass of `_FUNC_RE.sub(repl, _)`: scan left to right, at each word
boundary try to match a call of `darken` / `lighten` / `alpha`, replace it
by the evaluated result (errors propagate, aborting the substitution as a
raised `ValueError` does) and continue after the match.  `prevWord` records
whether the previous character is a word character, deciding the `\b`
boundary; `fuel` only makes the recursion structural, each step consumes at
least one character so `fuel = length + 1` never runs out. -/
def funcSubFuel : ℕ → Bool → List Char → Except QErr (List Char)
  | 0, _, cs => Except.ok cs
  | _ + 1, _, [] => Except.ok []
  | n + 1, pw, c :: rest =>
      if pw then
        match funcSubFuel n (isWordChar c) rest with
        | Except.error e => Except.error e
        | Except.ok tail => Except.ok (c :: tail)
      else
        match matchNameCI (c :: rest) with
        | some (f, afterName) =>
            match parseArgs afterName with
            | some (color, amt, rest2) =>
                match funcRepl f color amt with
                | Except.error e => Except.error e
                | Except.ok r =>
                    match funcSubFuel n false rest2 with
                    | Except.error e => Except.error e
                    | Except.ok tail => Except.ok (r.data ++ tail)
            | none =>
                match funcSubFuel n (isWordChar c) rest with
                | Except.error e => Except.error e
                | Except.ok tail => Except.ok (c :: tail)
        | none =>
            match funcSubFuel n (isWordChar c) rest with
            | Except.error e => Except.error e
            | Except.ok tail => Except.ok (c :: tail)

/-- One full substitution pass over a string. -/
def funcSubPass (s : String) : Except QErr String :=
  match funcSubFuel (s.data.length + 1) false s.data with
  | Except.error e => Except.error e
  | Except.ok cs => Except.ok (String.mk cs)

/-- Iteration of `_apply_functions`: run substitution passes while the text
keeps changing, at most `fuel` of them. -/
def applyFunctionsAux : ℕ → String → Except QErr String
  | 0, cur => Except.ok cur
  | n + 1, cur =>
      match funcSubPass cur with
      | Except.error e => Except.error e
      | Except.ok cur2 => if cur2 = cur then Except.ok cur else applyFunctionsAux n cur2

/-- Python source `_apply_functions`: up to 10 substitution passes, stopping
early once a pass produces no change. -/
def _apply_functions (text : String) : Except QErr String := applyFunctionsAux 10 text

/-- Maximal run of word characters (`\w*`). -/
def spanWord : List Char → List Char × List Char
  | [] => ([], [])
  | c :: rest =>
      if isWordChar c then
        let p := spanWord rest
        (c :: p.1, p.2)
      else ([], c :: rest)

/-- Identifier after a `$`: regex `[A-Za-z_]\w*`, maximal.  Returns the
identifier and the rest of the text. -/
def takeIdent (cs : List Char) : Option (String × List Char) :=
  match cs with
  | c :: rest =>
      if isIdentStart c then
        let p := spanWord rest
        some (String.mk (c :: p.1), p.2)
      else none
  | [] => none

/-- Association list with Python `dict` semantics: assignment overwrites in
place (order preserved), otherwise appends. -/
def dictSet (d : List (String × String)) (k v : String) : List (String × String) :=
  match d with
  | [] => [(k, v)]
  | (k0, v0) :: rest => if k0 = k then (k0, v) :: rest else (k0, v0) :: dictSet rest k v

/-- Lookup in the association list. -/
def dictGet (d : List (String × String)) (k : String) : Option String :=
  match d with
  | [] => none
  | (k0, v0) :: rest => if k0 = k then some v0 else dictGet rest k

/-- One pass of `_VAR_USE_RE.sub`: each `$name` occurrence is replaced by
the table value when `name` is present, else left as the literal `$name`
(`resolved.get(m.group(1), m.group(0))` in the source).  Replacement text is
not rescanned.  `fuel = length + 1` never runs out. -/
def varSubstFuel (tbl : List (String × String)) : ℕ → List Char → List Char
  | 0, cs => cs
  | _ + 1, [] => []
  | n + 1, c :: rest =>
      if c = '$' then
        match takeIdent rest with
        | some (name, rest2) =>
            match dictGet tbl name with
            | some v => v.data ++ varSubstFuel tbl n rest2
            | none => c :: (name.data ++ varSubstFuel tbl n rest2)
        | none => c :: varSubstFuel tbl n rest
      else c :: varSubstFuel tbl n rest

/-- One pass of `_VAR_USE_RE.sub` over a string. -/
def varSubst (tbl : List (String × String)) (s : String) : String :=
  String.mk (varSubstFuel tbl (s.data.length + 1) s.data)

/-- One pass of the table-resolution loop of `_expand_vars`: iterate over a
snapshot of the entries, substituting into each raw value using the current
(live, already partially updated) table, recording whether anything
changed. -/
def passOnce (d : List (String × String)) : List (String × String) × Bool :=
  d.foldl
    (fun acc kv =>
      let nv := varSubst acc.1 kv.2
      if nv = kv.2 then acc else (dictSet acc.1 kv.1 nv, true))
    (d, false)

/-- Table resolution of `_expand_vars`: at most `fuel` passes, stopping
early once a pass changes no value. -/
def resolveTable : ℕ → List (String × String) → List (String × String)
  | 0, d => d
  | n + 1, d =>
      let p := passOnce d
      if p.2 then resolveTable n p.1 else d

/-- Python source `_expand_vars`: resolve the table to a (possibly partial)
fixed point in at most 10 passes, then one substitution pass over the body
text. -/
def _expand_vars (text : String) (vars_ : List (String × String)) : String :=
  varSubst (resolveTable 10 vars_) text

/-- Split a text into lines at newline characters (the line structure that
`re.MULTILINE` anchors see). -/
def splitLinesCL : List Char → List (List Char)
  | [] => [[]]
  | c :: rest =>
      let r := splitLinesCL rest
      if c = '\n' then [] :: r
      else
        match r with
        | h :: t => (c :: h) :: t
        | [] => [[c]]

/-- Lines of a string. -/
def splitLinesStr (s : String) : List String := (splitLinesCL s.data).map String.mk

/-- Joining lines back with newlines (inverse of `splitLinesStr`). -/
def joinLinesCL : List (List Char) → List Char
  | [] => []
  | [l] => l
  | l :: ls => l ++ '\n' :: joinLinesCL ls

/-- Join a list of lines with newlines. -/
def joinLines (ls : List String) : String := String.mk (joinLinesCL (ls.map String.data))

/-- Scan for the first `;` that both closes a nonempty value span and is
followed only by whitespace; returns the span before it. -/
def findValueSemiAux (acc : List Char) : List Char → Option (List Char)
  | [] => none
  | c :: rest =>
      if c = ';' ∧ rest.all isPySpace ∧ acc ≠ [] then some acc.reverse
      else findValueSemiAux (c :: acc) rest

/-- Whether a line matches `_VAR_DEF_RE`
(`^\s*\$([A-Za-z_]\w*)\s*:\s*(.+?);\s*$`), and its captures: name, and the
raw value, which runs to the first `;` that is followed only by whitespace
(the lazy `(.+?)` with the anchored `;\s*$`); the extractor strips the
value.  The value span must be nonempty. -/
def parseVarDeclLine (l : String) : Option (String × String) :=
  match l.data.dropWhile isPySpace with
  | '$' :: r1 =>
      match takeIdent r1 with
      | some (name, r2) =>
          match r2.dropWhile isPySpace with
          | ':' :: r4 =>
              match findValueSemiAux [] r4 with
              | some v => some (name, pyStripStr (String.mk v))
              | none => none
          | _ => none
      | none => none
  | _ => none

/-- Python source `_extract_vars`: scan all declaration lines in textual
order into a dict, later declarations of the same name overwriting. -/
def _extract_vars (text : String) : List (String × String) :=
  (splitLinesStr text).foldl
    (fun d l =>
      match parseVarDeclLine l with
      | some nv => dictSet d nv.1 nv.2
      | none => d)
    []

/-- Whether `p` occurs as a contiguous infix of `s` (`"Variables" in
stripped` of the source). -/
def hasInfixCL (p : List Char) : List Char → Bool
  | [] => p.isEmpty
  | c :: t => p.isPrefixOf (c :: t) || hasInfixCL p t

/-- Python source `_remove_var_declarations`: blank out every declaration
line (`_VAR_DEF_RE.sub('')` leaves the empty line behind), then drop every
line that strips to nothing and every single-line `/* ... */` comment whose
text contains `Variables`. -/
def _remove_var_declarations (text : String) : String :=
  let t1 := (splitLinesStr text).map (fun l => if (parseVarDeclLine l).isSome then "" else l)
  let kept := t1.filter (fun l =>
    let s := pyStrip l.data
    !(s.isEmpty ||
      ("/*".data.isPrefixOf s && hasInfixCL "Variables".data s && "*/".data.isSuffixOf s)))
  joinLines kept

/-- Scan for the closing `*/` of a block comment; returns the text after
it. -/
def findCommentClose : List Char → Option (List Char)
  | [] => none
  | c :: cs =>
      if c = '*' then
        match cs with
        | c2 :: cs2 => if c2 = '/' then some cs2 else findCommentClose cs
        | [] => none
      else findCommentClose cs

/-- Python source `_remove_comments` (`re.sub(r"/\*.*?\*/", "", text,
flags=re.DOTALL)`): remove each shortest `/* ... */` span; a `/*` with no
later `*/` stays (and then no later comment can match either).  `fuel =
length + 1` never runs out. -/
def stripCommentsFuel : ℕ → List Char → List Char
  | 0, cs => cs
  | _ + 1, [] => []
  | n + 1, c :: cs =>
      if c = '/' then
        match cs with
        | c2 :: cs2 =>
            if c2 = '*' then
              match findCommentClose cs2 with
              | some rest => stripCommentsFuel n rest
              | none => c :: c2 :: cs2
            else c :: stripCommentsFuel n cs
        | [] => [c]
      else c :: stripCommentsFuel n cs

/-- Python source `_remove_comments` on a string. -/
def _remove_comments (text : String) : String :=
  String.mk (stripCommentsFuel (text.data.length + 1) text.data)

/-- Abstract filesystem capability used by import resolution, as §9 of the
spec suggests: `resolve` is `Path.resolve()` (normalisation to an absolute
identity), `resolveRel src rel` is `(src.parent / rel).resolve()`, and
`read` returns the content of an existing document (`none` when the path
does not exist, which is what `child.exists()` checks). -/
structure FS where
  resolve : String → String
  resolveRel : String → String → String
  read : String → Option String

/-- Whether a line matches `_IMPORT_RE`
(`^\s*@import\s+"([^"]+)"\s*;.*$`); returns the quoted relative path. -/
def parseImportLine (l : String) : Option String :=
  let cs := l.data.dropWhile isPySpace
  if (cs.take 7) = "@import".data then
    match cs.drop 7 with
    | c :: r1 =>
        if isPySpace c then
          match (c :: r1).dropWhile isPySpace with
          | '"' :: r3 =>
              match splitFirst '"' r3 with
              | some (path, r4) =>
                  if path = [] then none
                  else
                    match r4.dropWhile isPySpace with
                    | ';' :: _ => some (String.mk path)
                    | _ => none
              | none => none
          | _ => none
        else none
    | [] => none
  else none

/-- The `_IMPORT_RE.sub(import_repl, text)` loop of `_collect`, line by
line, threading the visited set through sibling imports exactly as the
mutated Python set is: each import line is replaced by the recursively
collected child text (after the `child.exists()` check), other lines pass
through.  `rec` is the recursive `_collect` call at one less fuel. -/
def collectLines (fs : FS) (rec : String → List String → Except QErr (String × List String))
    (p : String) : List String → List String → Except QErr (List String × List String)
  | [], vis => Except.ok ([], vis)
  | l :: ls, vis =>
      match parseImportLine l with
      | none =>
          match collectLines fs rec p ls vis with
          | Except.error e => Except.error e
          | Except.ok (rs, v) => Except.ok (l :: rs, v)
      | some rel =>
          let child := fs.resolveRel p rel
          if (fs.read child).isSome then
            match rec child vis with
            | Except.error e => Except.error e
            | Except.ok (txt, vis2) =>
                match collectLines fs rec p ls vis2 with
                | Except.error e => Except.error e
                | Except.ok (rs, v) => Except.ok (txt :: rs, v)
          else Except.error (QErr.fileNotFound child)

/-- Python source `_collect`: resolve the identity, fail with the
import-cycle error when it is already in the visited set (before any read
of the content), add it, read the content and expand its import lines
recursively.  Returns the flattened text and the grown visited set.  `fuel`
bounds the recursion depth as CPython's recursion limit does. -/
def _collect (fs : FS) : ℕ → String → List String → Except QErr (String × List String)
  | 0, _, _ => Except.error QErr.fuelExhausted
  | n + 1, src, vis =>
      let p := fs.resolve src
      if vis.contains p then Except.error (QErr.importCycle p)
      else
        match fs.read p with
        | none => Except.error (QErr.readFail p)
        | some text =>
            match collectLines fs (_collect fs n) p (splitLinesStr text) (p :: vis) with
            | Except.error e => Except.error e
            | Except.ok (ls, v) => Except.ok (joinLines ls, v)

/-- Python source `compile_qss` over the abstract filesystem: collect
imports, extract the variable table, strip declarations, strip comments,
expand variables, evaluate colour functions. -/
def compile_qss (fs : FS) (input_path : String) : Except QErr String :=
  match _collect fs 1000 input_path [] with
  | Except.error e => Except.error e
  | Except.ok (raw, _) =>
      let vars_ := _extract_vars raw
      let without_defs := _remove_var_declarations raw
      let without_defs2 := _remove_comments without_defs
      let expanded := _expand_vars without_defs2 vars_
      _apply_functions expanded

/-!  Concrete filesystem fixtures used by the compile-level theorems. -/

/-- Single document containing a chained variable definition and one body
line (the input of the chained-variables test of §8 of the spec). -/
def fsChained : FS :=
  { resolve := fun p => p
    resolveRel := fun _ rel => rel
    read := fun p => if p = "main.qsspp" then some "$a: #111;\n$b: $a;\ncolor: $b;" else none }

/-- Two documents importing each other: a genuine import cycle. -/
def fsCycle : FS :=
  { resolve := fun p => p
    resolveRel := fun _ rel => rel
    read := fun p =>
      if p = "x.qsspp" then some "@import \"y.qsspp\";\nbody-x"
      else if p = "y.qsspp" then some "@import \"x.qsspp\";\nbody-y"
      else none }

/-- Diamond-shaped import graph: the root imports `a` and `b`, each of which
imports the same `shared` document; the second visit of `shared` comes from
a sibling branch, not from an ancestor. -/
def fsDiamond : FS :=
  { resolve := fun p => p
    resolveRel := fun _ rel => rel
    read := fun p =>
      if p = "root.qsspp" then some "@import \"a.qsspp\";\n@import \"b.qsspp\";\nR"
      else if p = "a.qsspp" then some "@import \"shared.qsspp\";\nA"
      else if p = "b.qsspp" then some "@import \"shared.qsspp\";\nB"
      else if p = "shared.qsspp" then some "S"
      else none }

/-- One document whose single import target does not exist. -/
def fsMissing : FS :=
  { resolve := fun p => p
    resolveRel := fun _ rel => rel
    read := fun p => if p = "main.qsspp" then some "@import \"missing.qsspp\";\nbody" else none }

/-- C1: the spec promises that a textually nested call such as
`darken(lighten(#000000, 50%), 25%)` resolves fully with no error.  The
code does the opposite: `_FUNC_RE` finds the outer `darken(` first and its
`[^,]+` colour capture is `lighten(#000000`, so `_hex_to_rgb` raises the
Invalid-Color `ValueError` and compilation aborts — contradicting both the
spec and the source's own comment that the substitution loop exists to
resolve nested calls. -/
theorem C1_nested_call_crashes :
    _apply_functions "darken(lighten(#000000, 50%), 25%)" =
      Except.error (QErr.invalidColor "#lighten(#000000") := rfl

/-- C2 counterexample: on the chained-variables document the claim says the
compiled body is `color: #111111;`; the code resolves `$b` to the raw text
`#111` and nothing in the pipeline expands a bare 3-digit hex colour outside
a function call, so the output is `color: #111;`. -/
theorem C2_counterexample :
    compile_qss fsChained "main.qsspp" = Except.ok "color: #111;" ∧
      compile_qss fsChained "main.qsspp" ≠ Except.ok "color: #111111;" := by
  refine ⟨rfl, fun h => ?_⟩
  have h2 : "color: #111;" = "color: #111111;" := by
    have h1 : Except.ok (ε := QErr) "color: #111;" = Except.ok "color: #111111;" := h
    injection h1
  exact absurd h2 (by decide)

/-- C2 amended: the chained variable reference is resolved through the
table (`$b` → `$a` → `#111`) and the declaration lines are stripped, but
the 3-digit hex value is NOT expanded to 6 digits outside a function call:
the compiled body is `color: #111;`. -/
theorem C2_chained_vars :
    compile_qss fsChained "main.qsspp" = Except.ok "color: #111;" := rfl

/-- C3: whenever the resolved identity of a document is already in the
in-progress set, `_collect` fails with the Import-Cycle error naming that
identity, whatever the filesystem contents — the check precedes any read of
the document.  In particular two documents importing each other fail with
Import-Cycle, and a revisit of the same document from a sibling branch of a
diamond-shaped import graph is rejected the same way (the set grows before
recursion and is never pruned). -/
theorem C3_import_cycle :
    (∀ (fs : FS) (n : ℕ) (src : String) (vis : List String),
        vis.contains (fs.resolve src) = true →
        _collect fs (n + 1) src vis = Except.error (QErr.importCycle (fs.resolve src))) ∧
      compile_qss fsCycle "x.qsspp" = Except.error (QErr.importCycle "x.qsspp") ∧
      compile_qss fsDiamond "root.qsspp" = Except.error (QErr.importCycle "shared.qsspp") := by
  refine ⟨fun fs n src vis h => ?_, rfl, rfl⟩
  simp only [_collect, h, if_true]

/-- C3 witness: the general cycle theorem applied to a concrete filesystem,
fuel, source and visited set. -/
theorem C3_import_cycle_witness :
    _collect fsCycle 5 "x.qsspp" ["x.qsspp"] =
      Except.error (QErr.importCycle "x.qsspp") :=
  C3_import_cycle.1 fsCycle 4 "x.qsspp" ["x.qsspp"] (by decide)

/-- C4: an import line whose resolved target does not exist on disk makes
the whole collection fail with the File-Not-Found error naming the resolved
target, for any recursive continuation; and compiling a document with a
missing import target fails that way. -/
theorem C4_missing_import :
    (∀ (fs : FS) (rec : String → List String → Except QErr (String × List String))
        (p l : String) (ls vis : List String) (rel : String),
        parseImportLine l = some rel →
        fs.read (fs.resolveRel p rel) = none →
        collectLines fs rec p (l :: ls) vis =
          Except.error (QErr.fileNotFound (fs.resolveRel p rel))) ∧
      compile_qss fsMissing "main.qsspp" =
        Except.error (QErr.fileNotFound "missing.qsspp") := by
  refine ⟨fun fs rec p l ls vis rel h1 h2 => ?_, rfl⟩
  simp only [collectLines, h1, h2, Option.isSome_none, Bool.false_eq_true, if_false]

/-- C4 witness: the general missing-import theorem applied to the concrete
missing-target fixture. -/
theorem C4_missing_import_witness :
    collectLines fsMissing (fun _ _ => Except.error QErr.fuelExhausted) "main.qsspp"
        ["@import \"missing.qsspp\";"] [] =
      Except.error (QErr.fileNotFound "missing.qsspp") :=
  C4_missing_import.1 fsMissing (fun _ _ => Except.error QErr.fuelExhausted) "main.qsspp"
    "@import \"missing.qsspp\";" [] [] "missing.qsspp" (by decide) (by decide)

/-- Whether the text after an identifier stops the regex `\w*` run: empty or
a non-word character. -/
def wordBoundary : List Char → Bool
  | [] => true
  | c :: _ => !(isWordChar c)

/-- Shape of a `$`-reference name: regex `[A-Za-z_]\w*`. -/
def isIdentList : List Char → Bool
  | [] => false
  | c :: w => isIdentStart c && w.all isWordChar

/-- The maximal word run stops exactly at a word boundary. -/
theorem spanWord_append (w rest : List Char) (hw : w.all isWordChar = true)
    (hb : wordBoundary rest = true) : spanWord (w ++ rest) = (w, rest) := by
  induction w with
  | nil =>
      cases rest with
      | nil => simp [spanWord]
      | cons c t =>
          have hc : isWordChar c = false := by simpa [wordBoundary] using hb
          simp [spanWord, hc]
  | cons c w ih =>
      rw [List.all_cons, Bool.and_eq_true] at hw
      simp [spanWord, hw.1, ih hw.2]

/-- `takeIdent` recognises exactly an identifier followed by a boundary. -/
theorem takeIdent_append (nm rest : List Char) (h1 : isIdentList nm = true)
    (h2 : wordBoundary rest = true) :
    takeIdent (nm ++ rest) = some (String.mk nm, rest) := by
  cases nm with
  | nil => simp [isIdentList] at h1
  | cons c w =>
      rw [isIdentList, Bool.and_eq_true] at h1
      simp only [List.cons_append, takeIdent, h1.1, if_true]
      rw [spanWord_append w rest h1.2 h2]

/-- The rest returned by `spanWord` is no longer than the input. -/
theorem spanWord_snd_length (cs : List Char) : (spanWord cs).2.length ≤ cs.length := by
  induction cs with
  | nil => simp [spanWord]
  | cons c r ih =>
      by_cases h : isWordChar c
      · simp only [spanWord, h, if_true]
        exact Nat.le_succ_of_le ih
      · simp [spanWord, h]

/-- The rest returned by `takeIdent` is no longer than the input. -/
theorem takeIdent_snd_length (cs : List Char) (name : String) (r2 : List Char)
    (h : takeIdent cs = some (name, r2)) : r2.length ≤ cs.length := by
  cases cs with
  | nil => simp [takeIdent] at h
  | cons c rest =>
      by_cases hc : isIdentStart c
      · simp only [takeIdent, hc, if_true, Option.some.injEq, Prod.mk.injEq] at h
        rw [← h.2]
        exact Nat.le_succ_of_le (spanWord_snd_length rest)
      · simp [takeIdent, hc] at h

/-- The fuel of `varSubstFuel` is irrelevant as long as it is at least the
input length: each step consumes at least one character. -/
theorem varSubstFuel_congr (tbl : List (String × String)) :
    ∀ (n m : ℕ) (cs : List Char), cs.length ≤ n → cs.length ≤ m →
      varSubstFuel tbl n cs = varSubstFuel tbl m cs := by
  intro n
  induction n with
  | zero =>
      intro m cs hn _
      have hcs : cs = [] := List.length_eq_zero.mp (Nat.le_zero.mp hn)
      cases m <;> simp [hcs, varSubstFuel]
  | succ n ih =>
      intro m cs hn hm
      cases cs with
      | nil => cases m <;> simp [varSubstFuel]
      | cons c rest =>
          simp only [List.length_cons] at hn hm
          obtain ⟨m', rfl⟩ : ∃ m', m = m' + 1 := ⟨m - 1, by omega⟩
          simp only [varSubstFuel]
          by_cases hc : c = '$'
          · simp only [hc, if_true]
            cases htake : takeIdent rest with
            | none => rw [ih m' rest (by omega) (by omega)]
            | some p =>
                obtain ⟨name, r2⟩ := p
                have hr2 := takeIdent_snd_length rest name r2 htake
                cases hget : dictGet tbl name with
                | some v =>
                    simp only [hget]
                    rw [ih m' r2 (by omega) (by omega)]
                | none =>
                    simp only [hget]
                    rw [ih m' r2 (by omega) (by omega)]
          · simp only [hc, if_false]
            rw [ih m' rest (by omega) (by omega)]

/-- C5: the expander first resolves the table with bounded iteration — at
most 10 passes (first conjunct: the body substitution runs on
`resolveTable 10`), stopping as soon as a pass changes no value (second
conjunct) — and then performs a single substitution pass over the body in
which a `$name` occurrence is replaced by the resolved table value when the
name is present (third conjunct) and left as the literal `$name` text when
it is not (fourth conjunct); the same single-pass substitution is what each
table-resolution step applies to the table values themselves. -/
theorem C5_expand_vars :
    (∀ (text : String) (vars_ : List (String × String)),
        _expand_vars text vars_ = varSubst (resolveTable 10 vars_) text) ∧
    (∀ (d : List (String × String)) (n : ℕ),
        (passOnce d).2 = false → resolveTable n d = d) ∧
    (∀ (tbl : List (String × String)) (name : String) (rest : List Char) (v : String),
        isIdentList name.data = true → wordBoundary rest = true →
        dictGet tbl name = some v →
        varSubst tbl (String.mk ('$' :: name.data ++ rest)) =
          String.mk (v.data ++ (varSubst tbl (String.mk rest)).data)) ∧
    (∀ (tbl : List (String × String)) (name : String) (rest : List Char),
        isIdentList name.data = true → wordBoundary rest = true →
        dictGet tbl name = none →
        varSubst tbl (String.mk ('$' :: name.data ++ rest)) =
          String.mk ('$' :: name.data ++ (varSubst tbl (String.mk rest)).data)) := by
  refine ⟨fun _ _ => rfl, fun d n h => ?_, ?_, ?_⟩
  · cases n with
    | zero => rfl
    | succ n => simp [resolveTable, h]
  · intro tbl name rest v h1 h2 h3
    obtain ⟨nd⟩ := name
    simp only [varSubst, varSubstFuel, String.data, if_true, List.append_eq]
    simp only [takeIdent_append nd rest h1 h2, h3]
    rw [varSubstFuel_congr tbl (('$' :: nd ++ rest).length) (rest.length + 1) rest
      (by simp only [List.length_cons, List.length_append]; omega) (by omega)]
  · intro tbl name rest h1 h2 h3
    obtain ⟨nd⟩ := name
    simp only [varSubst, varSubstFuel, String.data, if_true, List.append_eq]
    simp only [takeIdent_append nd rest h1 h2, h3]
    rw [varSubstFuel_congr tbl (('$' :: nd ++ rest).length) (rest.length + 1) rest
      (by simp only [List.length_cons, List.length_append]; omega) (by omega)]
    simp only [List.cons_append]

/-- C5 witness: the known- and unknown-name substitution behaviour and the
early stop, at concrete inputs. -/
theorem C5_expand_vars_witness :
    varSubst [("a", "#111")] (String.mk ('$' :: "a".data ++ "; x".data)) =
      String.mk ("#111".data ++ (varSubst [("a", "#111")] (String.mk "; x".data)).data) ∧
    varSubst [("a", "#111")] (String.mk ('$' :: "b".data ++ "".data)) =
      String.mk ('$' :: "b".data ++ (varSubst [("a", "#111")] (String.mk "".data)).data) ∧
    resolveTable 7 [("a", "#111")] = [("a", "#111")] :=
  ⟨C5_expand_vars.2.2.1 [("a", "#111")] "a" "; x".data "#111" (by decide) (by decide) (by decide),
   C5_expand_vars.2.2.2 [("a", "#111")] "b" "".data (by decide) (by decide) (by decide),
   C5_expand_vars.2.1 [("a", "#111")] 7 (by decide)⟩

/-- Floor of an integer fraction with positive denominator is Euclidean
integer division. -/
theorem floor_intCast_div (p d : ℤ) (hd : 0 < d) : ⌊(p : ℚ) / (d : ℚ)⌋ = p / d := by
  have h1 : ((d.toNat : ℕ) : ℤ) = d := Int.toNat_of_nonneg hd.le
  have h2 : ((d.toNat : ℕ) : ℚ) = (d : ℚ) := by exact_mod_cast h1
  rw [← h2, Rat.floor_intCast_div_natCast p d.toNat, h1]

/-- Integer truncating division computes the spec-level truncation toward
zero of the fraction. -/
theorem pyTruncInt_eq (p d : ℤ) (hd : 0 < d) : pyTruncInt p d = truncQ ((p : ℚ) / (d : ℚ)) := by
  have hdq : (0 : ℚ) < (d : ℚ) := by exact_mod_cast hd
  rcases le_or_lt 0 p with hp | hp
  · have hx : ¬((p : ℚ) / (d : ℚ) < 0) :=
      not_lt.mpr (div_nonneg (by exact_mod_cast hp) hdq.le)
    rw [truncQ, if_neg hx, floor_intCast_div p d hd, pyTruncInt, Int.tdiv_eq_ediv hp hd.le]
  · have hx : (p : ℚ) / (d : ℚ) < 0 := div_neg_of_neg_of_pos (by exact_mod_cast hp) hdq
    rw [truncQ, if_pos hx, pyTruncInt]
    rw [show -((p : ℚ) / (d : ℚ)) = ((-p : ℤ) : ℚ) / (d : ℚ) by push_cast; ring]
    rw [floor_intCast_div (-p) d hd]
    rw [show p.tdiv d = -((-p).tdiv d) by rw [Int.neg_tdiv]; ring]
    rw [Int.tdiv_eq_ediv (by omega) hd.le]

/-- Fractional part of an integer fraction is remainder over divisor. -/
theorem fract_intCast_div (p d : ℤ) (hd : 0 < d) :
    Int.fract ((p : ℚ) / (d : ℚ)) = ((p % d : ℤ) : ℚ) / (d : ℚ) := by
  have hdq : (0 : ℚ) < (d : ℚ) := by exact_mod_cast hd
  rw [Int.fract, floor_intCast_div p d hd]
  have h := Int.ediv_add_emod p d
  have hq : ((d * (p / d) + p % d : ℤ) : ℚ) = (p : ℚ) := by exact_mod_cast h
  push_cast at hq
  field_simp
  linarith [hq]

/-- The integer round-half-to-even computes the spec-level one on the
fraction. -/
theorem pyRoundInt_eq (p d : ℤ) (hd : 0 < d) : pyRoundInt p d = roundQ ((p : ℚ) / (d : ℚ)) := by
  have hdq : (0 : ℚ) < (d : ℚ) := by exact_mod_cast hd
  have hq := floor_intCast_div p d hd
  have hf := fract_intCast_div p d hd
  have hhalf : Int.fract ((p : ℚ) / (d : ℚ)) < 1 / 2 ↔ 2 * (p % d) < d := by
    rw [hf, div_lt_div_iff₀ hdq (by norm_num)]
    rw [show (1 : ℚ) * (d : ℚ) = ((d : ℤ) : ℚ) by rw [one_mul]]
    rw [show ((p % d : ℤ) : ℚ) * 2 = ((2 * (p % d) : ℤ) : ℚ) by push_cast; ring]
    exact Int.cast_lt
  have hhalf2 : 1 / 2 < Int.fract ((p : ℚ) / (d : ℚ)) ↔ d < 2 * (p % d) := by
    rw [hf, div_lt_div_iff₀ (by norm_num) hdq]
    rw [show (1 : ℚ) * (d : ℚ) = ((d : ℤ) : ℚ) by rw [one_mul]]
    rw [show ((p % d : ℤ) : ℚ) * 2 = ((2 * (p % d) : ℤ) : ℚ) by push_cast; ring]
    exact Int.cast_lt
  simp only [pyRoundInt, roundQ, hq]
  by_cases h1 : 2 * (p % d) < d
  · rw [if_pos h1, if_pos (hhalf.mpr h1)]
  · rw [if_neg h1, if_neg (fun hh => h1 (hhalf.mp hh))]
    by_cases h2 : d < 2 * (p % d)
    · rw [if_pos h2, if_pos (hhalf2.mpr h2)]
    · rw [if_neg h2, if_neg (fun hh => h2 (hhalf2.mp hh))]

/-- Truncation toward zero is the identity on integer values. -/
theorem truncQ_intCast (n : ℤ) : truncQ ((n : ℚ)) = n := by
  rw [truncQ]
  by_cases h : (n : ℚ) < 0
  · rw [if_pos h, show -((n : ℚ)) = ((-n : ℤ) : ℚ) by push_cast; ring, Int.floor_intCast]
    ring
  · rw [if_neg h, Int.floor_intCast]

/-- Round half to even is the identity on integer values. -/
theorem roundQ_intCast (n : ℤ) : roundQ ((n : ℚ)) = n := by
  rw [roundQ, Int.fract_intCast]
  norm_num [Int.floor_intCast]

/-- Value of a float whose exponent is nonnegative, as an integer cast. -/
theorem toRat_nonneg_exp (x : F64) (h : 0 ≤ x.e) :
    x.toRat = ((x.m * 2 ^ x.e.toNat : ℤ) : ℚ) := by
  have he : x.e = ((x.e.toNat : ℤ)) := (Int.toNat_of_nonneg h).symm
  rw [F64.toRat]
  conv_lhs => rw [he]
  rw [zpow_natCast]
  push_cast
  ring

/-- Value of a float with a negative exponent, as an integer fraction. -/
theorem toRat_neg_exp (x : F64) (h : ¬0 ≤ x.e) :
    x.toRat = ((x.m : ℤ) : ℚ) / (((2 : ℤ) ^ (-x.e).toNat : ℤ) : ℚ) := by
  have h2 : x.e = -(((-x.e).toNat : ℤ)) := by omega
  rw [F64.toRat]
  conv_lhs => rw [h2]
  rw [zpow_neg, zpow_natCast]
  push_cast
  rw [div_eq_mul_inv]

/-- Python `int()` on a finite float is the spec-level truncation toward
zero of its value. -/
theorem truncIntF64_eq (x : F64) : truncIntF64 x = truncQ x.toRat := by
  by_cases h : 0 ≤ x.e
  · rw [truncIntF64, if_pos h, toRat_nonneg_exp x h, truncQ_intCast]
  · rw [truncIntF64, if_neg h, toRat_neg_exp x h,
      pyTruncInt_eq _ _ (pow_pos (by norm_num) _)]

/-- Python `round()` on a finite float is the spec-level round half to even
of its value. -/
theorem roundIntF64_eq (x : F64) : roundIntF64 x = roundQ x.toRat := by
  by_cases h : 0 ≤ x.e
  · rw [roundIntF64, if_pos h, toRat_nonneg_exp x h, roundQ_intCast]
  · rw [roundIntF64, if_neg h, toRat_neg_exp x h,
      pyRoundInt_eq _ _ (pow_pos (by norm_num) _)]

/-- Successful `_alpha` evaluation emits the half-to-even rounding of the
value of the binary64 product of the parsed amount and 255 as the fourth
component, whatever the parsed amount (both branches of the source's range
test compute the same value). -/
theorem alpha_eval (c a : String) (r g b : ℤ) (f p : F64)
    (h1 : _hex_to_rgb c = Except.ok (r, g, b))
    (h2 : _parse_percent_or_float a = Except.ok f)
    (h3 : flMul f (F64.mk 255 0) = some p) :
    _alpha c a = Except.ok (rgbaStr r g b (roundQ p.toRat)) := by
  simp only [_alpha, h1, h2, h3, ite_self]
  rw [roundIntF64_eq]

set_option maxRecDepth 100000 in
/-- C6 counterexample: the 53-digit decimal amount below is the exact
decimal expansion of `d = 4680211377463457 / 2 ^ 53`, so both the program's
float parse and the claim's "parsed fraction" give exactly `d`, which lies
in `[0, 1]`.  The exact product `d * 255` is `132.5 + 95 / 2 ^ 53`, so the
claim's `A = round(a * 255)` is 133; the program multiplies in binary64,
where the product rounds down to exactly `132.5`, and half-to-even then
gives 132. -/
theorem C6_counterexample :
    _parse_percent_or_float
        "0.51960784313725494332203425074112601578235626220703125" =
      Except.ok (F64.mk 4680211377463457 (-53)) ∧
      (0 : ℚ) ≤ (4680211377463457 : ℚ) / 2 ^ 53 ∧
      (4680211377463457 : ℚ) / 2 ^ 53 ≤ 1 ∧
      _alpha "#000000"
          "0.51960784313725494332203425074112601578235626220703125" =
        Except.ok "rgba(0, 0, 0, 132)" ∧
      roundQ (((4680211377463457 : ℚ) / 2 ^ 53) * 255) = 133 := by
  refine ⟨rfl, by norm_num, by norm_num, rfl, ?_⟩
  have h : ((4680211377463457 : ℚ) / 2 ^ 53) * 255 =
      ((1193453901253181535 : ℤ) : ℚ) / ((9007199254740992 : ℤ) : ℚ) := by norm_num
  rw [h, ← pyRoundInt_eq _ _ (by norm_num)]
  decide

/-- C6 amended: for every valid hex colour and amount whose parsed (float)
fraction lies in `[0, 1]`, `alpha` rewrites to `rgba(r, g, b, A)` with
`r, g, b` the decimal channel values and `A = round(a * 255)` where the
product is the binary64 product (one rounding, as CPython computes it) and
the rounding is half to even; in particular the two concrete rewrites of
the spec hold through the full function evaluator (their products are
exact). -/
theorem C6_alpha_float :
    (∀ (c a : String) (r g b : ℤ) (f p : F64),
        _hex_to_rgb c = Except.ok (r, g, b) →
        _parse_percent_or_float a = Except.ok f →
        flMul f (F64.mk 255 0) = some p →
        0 ≤ f.toRat → f.toRat ≤ 1 →
        _alpha c a = Except.ok (rgbaStr r g b (roundQ p.toRat))) ∧
      _apply_functions "alpha(#FF0000, 50%)" = Except.ok "rgba(255, 0, 0, 128)" ∧
      _apply_functions "alpha(#00FF00, 1)" = Except.ok "rgba(0, 255, 0, 255)" :=
  ⟨fun c a r g b f p h1 h2 h3 _ _ => alpha_eval c a r g b f p h1 h2 h3, rfl, rfl⟩

/-- C6 witness: the general formula applied at `alpha(#FF0000, 50%)`
(`50%` parses to the float `0.5`, the product is the exact `127.5`). -/
theorem C6_alpha_float_witness :
    _alpha "#FF0000" "50%" =
      Except.ok (rgbaStr 255 0 0 (roundQ (F64.mk 8972014882652160 (-46)).toRat)) :=
  C6_alpha_float.1 "#FF0000" "50%" 255 0 0 (F64.mk 4503599627370496 (-53))
    (F64.mk 8972014882652160 (-46)) rfl rfl rfl
    (by rw [toRat_neg_exp _ (by norm_num)]
        norm_num [show ((53 : ℤ)).toNat = 53 from rfl])
    (by rw [toRat_neg_exp _ (by norm_num)]
        norm_num [show ((53 : ℤ)).toNat = 53 from rfl])

/-- C7 counterexample: at `darken(#646464, 0.9)` the program parses `0.9`
to the nearest binary64 (slightly above `9/10`), computes `1 - f` and
`100 * (1 - f)` with one rounding each, obtaining a float slightly below
10, and truncation gives channel 9 and output `#090909`.  The claim's
exact formula `trunc(100 * (1 - 9/10))` gives channel 10, i.e. output
`#0A0A0A`. -/
theorem C7_counterexample :
    _darken "#646464" "0.9" = Except.ok "#090909" ∧
      String.mk ('#' ::
          (hex2 (clamp255 (truncQ ((100 : ℚ) * (1 - 9 / 10)))) ++
            hex2 (clamp255 (truncQ ((100 : ℚ) * (1 - 9 / 10)))) ++
            hex2 (clamp255 (truncQ ((100 : ℚ) * (1 - 9 / 10)))))) = "#0A0A0A" ∧
      ("#0A0A0A" : String) ≠ "#090909" := by
  refine ⟨rfl, ?_, by decide⟩
  have h : (100 : ℚ) * (1 - 9 / 10) = ((10 : ℤ) : ℚ) := by norm_num
  rw [h, truncQ_intCast]
  rfl

/-- C7 amended: on every successfully parsed colour and amount, `lighten`
computes each channel as the truncation toward zero of the value of the
binary64 evaluation of `channel + (255 - channel) * f` (`lightenFloat`:
each conversion and operation rounded to nearest, ties to even) and
`darken` likewise of `channel * (1 - f)` (`darkenFloat`), the truncated
channels then clamped to `[0, 255]` (`clamp255`) and re-encoded as
`#RRGGBB` with two uppercase hex digits per channel (`hex2`). -/
theorem C7_lighten_darken_float :
    ∀ (c a : String) (r g b : ℤ) (f xr xg xb yr yg yb : F64),
      _hex_to_rgb c = Except.ok (r, g, b) →
      _parse_percent_or_float a = Except.ok f →
      lightenFloat r f = some xr → lightenFloat g f = some xg →
      lightenFloat b f = some xb →
      darkenFloat r f = some yr → darkenFloat g f = some yg →
      darkenFloat b f = some yb →
      _lighten c a =
          Except.ok (String.mk ('#' ::
            (hex2 (clamp255 (truncQ xr.toRat)) ++ hex2 (clamp255 (truncQ xg.toRat)) ++
              hex2 (clamp255 (truncQ xb.toRat))))) ∧
        _darken c a =
          Except.ok (String.mk ('#' ::
            (hex2 (clamp255 (truncQ yr.toRat)) ++ hex2 (clamp255 (truncQ yg.toRat)) ++
              hex2 (clamp255 (truncQ yb.toRat))))) := by
  intro c a r g b f xr xg xb yr yg yb h1 h2 hl1 hl2 hl3 hd1 hd2 hd3
  constructor
  · simp only [_lighten, h1, h2, hl1, hl2, hl3, _rgb_to_hex, truncIntF64_eq]
  · simp only [_darken, h1, h2, hd1, hd2, hd3, _rgb_to_hex, truncIntF64_eq]

/-- C7 witness: the float formula applied at `#808080` with amount `50%`
(the parsed float is exactly `0.5`, the lighten channels evaluate to the
float `191.5` and the darken channels to the float `64`). -/
theorem C7_lighten_darken_float_witness :
    _lighten "#808080" "50%" =
        Except.ok (String.mk ('#' ::
          (hex2 (clamp255 (truncQ (F64.mk 6737807255011328 (-45)).toRat)) ++
            hex2 (clamp255 (truncQ (F64.mk 6737807255011328 (-45)).toRat)) ++
            hex2 (clamp255 (truncQ (F64.mk 6737807255011328 (-45)).toRat))))) ∧
      _darken "#808080" "50%" =
        Except.ok (String.mk ('#' ::
          (hex2 (clamp255 (truncQ (F64.mk 4503599627370496 (-46)).toRat)) ++
            hex2 (clamp255 (truncQ (F64.mk 4503599627370496 (-46)).toRat)) ++
            hex2 (clamp255 (truncQ (F64.mk 4503599627370496 (-46)).toRat))))) :=
  C7_lighten_darken_float "#808080" "50%" 128 128 128 (F64.mk 4503599627370496 (-53))
    (F64.mk 6737807255011328 (-45)) (F64.mk 6737807255011328 (-45))
    (F64.mk 6737807255011328 (-45)) (F64.mk 4503599627370496 (-46))
    (F64.mk 4503599627370496 (-46)) (F64.mk 4503599627370496 (-46))
    rfl rfl rfl rfl rfl rfl rfl rfl

set_option maxRecDepth 100000 in
/-- C10 counterexample: with the amount the negation of the 53-digit
decimal of `d = 4680211377463457 / 2 ^ 53`, the program emits -132 (the
binary64 product is exactly `-132.5`, rounding half to even), while the
claim's exact `round(amount * 255)` is -133. -/
theorem C10_counterexample :
    _alpha "#000000"
        "-0.51960784313725494332203425074112601578235626220703125" =
      Except.ok "rgba(0, 0, 0, -132)" ∧
      roundQ ((-(4680211377463457 : ℚ) / 2 ^ 53) * 255) = -133 := by
  refine ⟨rfl, ?_⟩
  have h : (-(4680211377463457 : ℚ) / 2 ^ 53) * 255 =
      ((-1193453901253181535 : ℤ) : ℚ) / ((9007199254740992 : ℤ) : ℚ) := by norm_num
  rw [h, ← pyRoundInt_eq _ _ (by norm_num)]
  decide

/-- C10 amended: the evaluator emits the half-to-even rounding of the
binary64 product of the parsed amount and 255 as the fourth rgba component,
with no clamping whatever the parsed amount: an amount of 2 yields 510
through the full evaluator and an amount of -1 yields -255 (both products
exact). -/
theorem C10_alpha_no_clamp_float :
    (∀ (c a : String) (r g b : ℤ) (f p : F64),
        _hex_to_rgb c = Except.ok (r, g, b) →
        _parse_percent_or_float a = Except.ok f →
        flMul f (F64.mk 255 0) = some p →
        _alpha c a = Except.ok (rgbaStr r g b (roundQ p.toRat))) ∧
      _apply_functions "alpha(#000000, 2)" = Except.ok "rgba(0, 0, 0, 510)" ∧
      _alpha "#000000" "-1" = Except.ok "rgba(0, 0, 0, -255)" :=
  ⟨alpha_eval, rfl, rfl⟩

/-- C10 witness: the general no-clamping formula applied at amount 2 (the
product is the exact float `510`). -/
theorem C10_alpha_no_clamp_float_witness :
    _alpha "#000000" "2" =
      Except.ok (rgbaStr 0 0 0 (roundQ (F64.mk 8972014882652160 (-44)).toRat)) :=
  C10_alpha_no_clamp_float.1 "#000000" "2" 0 0 0 (F64.mk 4503599627370496 (-51))
    (F64.mk 8972014882652160 (-44)) rfl rfl rfl

/-- Hex digit test for the spec-side well-formedness predicate. -/
def isHexDigitChar (c : Char) : Bool := (hexVal? c).isSome

/-- Modelled from the spec's words (well-formedness of a colour argument,
used only to state C9): a hex colour in `#RGB` or `#RRGGBB` form, the `#`
prefix optional. -/
def specWellFormedColor (s : String) : Bool :=
  let t := match s.data with
           | '#' :: r => r
           | r => r
  (t.length = 3 || t.length = 6) && t.all isHexDigitChar

/-- C9 counterexample: `+1+2+3` is not a well-formed `#RGB`/`#RRGGBB` hex
string, yet the evaluator does not fail at all on
`lighten(+1+2+3, 0)` — Python `int(_, 16)` accepts a sign on each
2-character group, so the call rewrites successfully to `#010203`. -/
theorem C9_counterexample :
    specWellFormedColor "+1+2+3" = false ∧
      _apply_functions "lighten(+1+2+3, 0)" = Except.ok "#010203" := ⟨rfl, rfl⟩

/-- C9 amended: the crafted Invalid-Color error (which names the offending
value) is raised exactly when the normalised colour argument does not have
6 characters; a 6-character argument with a non-hex group fails instead
with the numeric-parse error naming only that 2-character group (as
`_hex_to_rgb "#GGGGGG"` shows), and an Invalid-Color failure propagates out
of the evaluator (as `darken(#12345, 0%)` shows). -/
theorem C9_invalid_color_amended :
    (∀ s : String, (normColor s).length ≠ 6 →
        _hex_to_rgb s = Except.error (QErr.invalidColor (String.mk ('#' :: normColor s)))) ∧
      _hex_to_rgb "#GGGGGG" = Except.error (QErr.intParse "GG") ∧
      _apply_functions "darken(#12345, 0%)" = Except.error (QErr.invalidColor "#12345") := by
  refine ⟨fun s h => ?_, rfl, rfl⟩
  simp only [_hex_to_rgb, h, if_false]

/-- C9 witness: the wrong-length branch of the amended statement at a
concrete input. -/
theorem C9_invalid_color_amended_witness :
    _hex_to_rgb "zz" = Except.error (QErr.invalidColor (String.mk ('#' :: normColor "zz"))) :=
  C9_invalid_color_amended.1 "zz" (by decide)

/-- The 22 hexadecimal digit characters. -/
def hexDigitChars : List Char := "0123456789abcdefABCDEF".data

/-- Value of a hex digit character (0 as a junk default elsewhere). -/
def hv (c : Char) : ℕ := (hexVal? c).getD 0

/-- ASCII uppercase conversion (what Python `str.upper` does on the
characters at issue). -/
def asciiUpper (c : Char) : Char :=
  if 'a' ≤ c ∧ c ≤ 'z' then Char.ofNat (c.toNat - 32) else c

/-- Python `str.upper()` on ASCII text. -/
def pyUpper (s : String) : String := String.mk (s.data.map asciiUpper)

/-- Facts about each hexadecimal digit character, checked by enumeration:
not whitespace, not a sign, not a base-prefix letter, not an underscore,
its digit value is below 16 and uppercasing commutes with re-encoding. -/
theorem hexchar_facts : ∀ c ∈ hexDigitChars,
    isPySpace c = false ∧ c ≠ '-' ∧ c ≠ '+' ∧ c ≠ 'x' ∧ c ≠ 'X' ∧ c ≠ '_' ∧
      hexVal? c = some (hv c) ∧ hv c < 16 ∧ hexDigitU (hv c) = asciiUpper c := by decide

/-- `dropWhile` keeps a list whose head fails the test. -/
theorem dropWhile_cons_of_neg (p : Char → Bool) (c : Char) (l : List Char) (h : p c = false) :
    (c :: l).dropWhile p = c :: l := by simp [List.dropWhile_cons, h]

/-- Stripping does not change a text whose two ends are not whitespace. -/
theorem pyStrip_keep (c d : Char) (l : List Char) (hc : isPySpace c = false)
    (hd : isPySpace d = false) : pyStrip (c :: (l ++ [d])) = c :: (l ++ [d]) := by
  rw [pyStrip, dropWhile_cons_of_neg _ _ _ hc]
  rw [show (c :: (l ++ [d])).reverse = d :: (l.reverse ++ [c]) by simp]
  rw [dropWhile_cons_of_neg _ _ _ hd]
  simp

/-- Stripping keeps a two-character non-whitespace text. -/
theorem pyStrip_pair (a b : Char) (ha : isPySpace a = false) (hb : isPySpace b = false) :
    pyStrip [a, b] = [a, b] := by
  simpa using pyStrip_keep a b [] ha hb

/-- `int(_, 16)` on a two-hex-digit group computes the channel value. -/
theorem pyIntHex_pair (a b : Char) (ha : a ∈ hexDigitChars) (hb : b ∈ hexDigitChars) :
    pyIntHex (String.mk [a, b]) = some ((16 * hv a + hv b : ℕ) : ℤ) := by
  obtain ⟨hwa, hma, hpa, -, -, hua, hva, -, -⟩ := hexchar_facts a ha
  obtain ⟨hwb, -, -, hxb, hXb, hub, hvb, -, -⟩ := hexchar_facts b hb
  have hstrip : pyStrip [a, b] = [a, b] := pyStrip_pair a b hwa hwb
  have hsign : stripSign [a, b] = (false, [a, b]) := by
    simp [stripSign, hma, hpa]
  have hcore : pyIntHexCore [a, b] = some (16 * hv a + hv b) := by
    have hcond : ¬(a = '0' ∧ (b = 'x' ∨ b = 'X')) := fun h => h.2.elim hxb hXb
    simp only [pyIntHexCore, if_neg hcond]
    simp only [parseHexDigits, if_neg hua, hva]
    simp only [parseHexDigitsAux, if_neg hub, hvb]
  simp only [pyIntHex, hstrip, hsign, hcore]
  simp

/-- `_hex_to_rgb` on `#RRGGBB` built from any six hex digit characters
yields the three channel values. -/
theorem hex_to_rgb_digits (c1 c2 c3 c4 c5 c6 : Char)
    (h1 : c1 ∈ hexDigitChars) (h2 : c2 ∈ hexDigitChars) (h3 : c3 ∈ hexDigitChars)
    (h4 : c4 ∈ hexDigitChars) (h5 : c5 ∈ hexDigitChars) (h6 : c6 ∈ hexDigitChars) :
    _hex_to_rgb (String.mk ['#', c1, c2, c3, c4, c5, c6]) =
      Except.ok (((16 * hv c1 + hv c2 : ℕ) : ℤ), ((16 * hv c3 + hv c4 : ℕ) : ℤ),
        ((16 * hv c5 + hv c6 : ℕ) : ℤ)) := by
  have hw6 := (hexchar_facts c6 h6).1
  have hstrip : pyStrip ['#', c1, c2, c3, c4, c5, c6] = ['#', c1, c2, c3, c4, c5, c6] := by
    simpa using pyStrip_keep '#' c6 [c1, c2, c3, c4, c5] (by decide) hw6
  have hnorm : normColor (String.mk ['#', c1, c2, c3, c4, c5, c6]) = [c1, c2, c3, c4, c5, c6] := by
    simp only [normColor, hstrip]
    simp [List.length_cons]
  simp only [_hex_to_rgb, hnorm]
  rw [if_pos (by simp [List.length_cons])]
  rw [show List.take 2 [c1, c2, c3, c4, c5, c6] = [c1, c2] from rfl]
  rw [show (List.drop 2 [c1, c2, c3, c4, c5, c6]).take 2 = [c3, c4] from rfl]
  rw [show (List.drop 4 [c1, c2, c3, c4, c5, c6]).take 2 = [c5, c6] from rfl]
  rw [pyIntHex_pair c1 c2 h1 h2, pyIntHex_pair c3 c4 h3 h4, pyIntHex_pair c5 c6 h5 h6]

/-- An integer of magnitude at most `2 ^ 53` paired with exponent 0 is
already a representable binary64 pair, so rounding is the identity. -/
theorem roundPairF_int_small (k : ℤ) (h1 : -(2 : ℤ) ^ 53 ≤ k) (h2 : k ≤ 2 ^ 53) :
    roundPairF k 0 = some (F64.mk k 0) := by
  rw [roundPairF, if_pos ⟨h1, h2, by norm_num, by norm_num⟩]

/-- Conversion of a small integer to binary64 is exact. -/
theorem intToF64_small (k : ℤ) (h1 : -(2 : ℤ) ^ 53 ≤ k) (h2 : k ≤ 2 ^ 53) :
    intToF64 k = some (F64.mk k 0) := by
  rw [intToF64, roundPairF_int_small k h1 h2]

/-- With a parsed float of 0, the lighten channel computation returns the
channel exactly. -/
theorem lightenFloat_zero (x : ℤ) (h1 : 0 ≤ x) (h2 : x ≤ 255) :
    lightenFloat x (F64.mk 0 0) = some (F64.mk x 0) := by
  have ha : intToF64 (255 - x) = some (F64.mk (255 - x) 0) :=
    intToF64_small _ (by norm_num; omega) (by norm_num; omega)
  have hb : flMul (F64.mk (255 - x) 0) (F64.mk 0 0) = some (F64.mk 0 0) := by
    rw [flMul]
    simp only [mul_zero, add_zero]
    exact roundPairF_int_small 0 (by norm_num) (by norm_num)
  have hc : intToF64 x = some (F64.mk x 0) :=
    intToF64_small _ (by norm_num; omega) (by norm_num; omega)
  have hd : flAdd (F64.mk x 0) (F64.mk 0 0) = some (F64.mk x 0) := by
    rw [flAdd, if_pos (le_refl (0 : ℤ))]
    simp only [sub_zero, Int.toNat_zero, pow_zero, mul_one, zero_mul, add_zero]
    exact roundPairF_int_small x (by norm_num; omega) (by norm_num; omega)
  simp only [lightenFloat, ha, hb, hc, hd]

/-- With a parsed float of 0, the darken channel computation returns the
channel exactly. -/
theorem darkenFloat_zero (x : ℤ) (h1 : 0 ≤ x) (h2 : x ≤ 255) :
    darkenFloat x (F64.mk 0 0) = some (F64.mk x 0) := by
  have ha : flAdd (F64.mk 1 0) (F64.mk (-0) 0) = some (F64.mk 1 0) := by
    rw [flAdd, if_pos (le_refl (0 : ℤ))]
    simp only [sub_zero, Int.toNat_zero, pow_zero, mul_one, neg_zero, add_zero]
    exact roundPairF_int_small 1 (by norm_num) (by norm_num)
  have hc : intToF64 x = some (F64.mk x 0) :=
    intToF64_small _ (by norm_num; omega) (by norm_num; omega)
  have hd : flMul (F64.mk x 0) (F64.mk 1 0) = some (F64.mk x 0) := by
    rw [flMul]
    simp only [mul_one, add_zero]
    exact roundPairF_int_small x (by norm_num; omega) (by norm_num; omega)
  simp only [darkenFloat, ha, hc, hd]

/-- A float with exponent 0 truncates to its mantissa. -/
theorem truncIntF64_exp0 (m : ℤ) : truncIntF64 (F64.mk m 0) = m := by
  simp [truncIntF64]

/-- Re-encoding a channel value built from two hex digits clamps to itself
and uppercases the two digits. -/
theorem hex2_pair (u v : Char) (hu : u ∈ hexDigitChars) (hvm : v ∈ hexDigitChars) :
    hex2 (clamp255 ((16 * hv u + hv v : ℕ) : ℤ)) = [asciiUpper u, asciiUpper v] := by
  obtain ⟨-, -, -, -, -, -, -, hlu, hupu⟩ := hexchar_facts u hu
  obtain ⟨-, -, -, -, -, -, -, hlv, hupv⟩ := hexchar_facts v hvm
  have hle : (16 * hv u + hv v : ℕ) ≤ 255 := by omega
  have hcl : clamp255 ((16 * hv u + hv v : ℕ) : ℤ) = ((16 * hv u + hv v : ℕ) : ℤ) := by
    rw [clamp255, min_eq_right (by exact_mod_cast hle), max_eq_right (by positivity)]
  rw [hcl, hex2, Int.toNat_natCast]
  rw [show (16 * hv u + hv v) / 16 = hv u from by omega]
  rw [show (16 * hv u + hv v) % 16 = hv v from by omega]
  rw [hupu, hupv]

/-- C8: on every valid 6-digit `#RRGGBB` input, `lighten` and `darken` with
amount `0%` are the identity up to case-normalisation to uppercase. -/
theorem C8_zero_identity :
    ∀ c1 c2 c3 c4 c5 c6 : Char,
      c1 ∈ hexDigitChars → c2 ∈ hexDigitChars → c3 ∈ hexDigitChars →
      c4 ∈ hexDigitChars → c5 ∈ hexDigitChars → c6 ∈ hexDigitChars →
      _lighten (String.mk ['#', c1, c2, c3, c4, c5, c6]) "0%" =
          Except.ok (pyUpper (String.mk ['#', c1, c2, c3, c4, c5, c6])) ∧
        _darken (String.mk ['#', c1, c2, c3, c4, c5, c6]) "0%" =
          Except.ok (pyUpper (String.mk ['#', c1, c2, c3, c4, c5, c6])) := by
  intro c1 c2 c3 c4 c5 c6 h1 h2 h3 h4 h5 h6
  have hrgb := hex_to_rgb_digits c1 c2 c3 c4 c5 c6 h1 h2 h3 h4 h5 h6
  have hparse : _parse_percent_or_float "0%" = Except.ok (F64.mk 0 0) := rfl
  have hb1 : (16 * hv c1 + hv c2 : ℕ) ≤ 255 := by
    obtain ⟨-, -, -, -, -, -, -, hl, -⟩ := hexchar_facts c1 h1
    obtain ⟨-, -, -, -, -, -, -, hl2, -⟩ := hexchar_facts c2 h2
    omega
  have hb2 : (16 * hv c3 + hv c4 : ℕ) ≤ 255 := by
    obtain ⟨-, -, -, -, -, -, -, hl, -⟩ := hexchar_facts c3 h3
    obtain ⟨-, -, -, -, -, -, -, hl2, -⟩ := hexchar_facts c4 h4
    omega
  have hb3 : (16 * hv c5 + hv c6 : ℕ) ≤ 255 := by
    obtain ⟨-, -, -, -, -, -, -, hl, -⟩ := hexchar_facts c5 h5
    obtain ⟨-, -, -, -, -, -, -, hl2, -⟩ := hexchar_facts c6 h6
    omega
  have hupper : pyUpper (String.mk ['#', c1, c2, c3, c4, c5, c6]) =
      String.mk ('#' :: ([asciiUpper c1, asciiUpper c2] ++ [asciiUpper c3, asciiUpper c4] ++
        [asciiUpper c5, asciiUpper c6])) := by
    simp only [pyUpper, List.map]
    rw [show asciiUpper '#' = '#' from by decide]
    simp
  have hl1 : lightenFloat ((16 * hv c1 + hv c2 : ℕ) : ℤ) (F64.mk 0 0) =
      some (F64.mk ((16 * hv c1 + hv c2 : ℕ) : ℤ) 0) :=
    lightenFloat_zero _ (by positivity) (by exact_mod_cast hb1)
  have hl2 : lightenFloat ((16 * hv c3 + hv c4 : ℕ) : ℤ) (F64.mk 0 0) =
      some (F64.mk ((16 * hv c3 + hv c4 : ℕ) : ℤ) 0) :=
    lightenFloat_zero _ (by positivity) (by exact_mod_cast hb2)
  have hl3 : lightenFloat ((16 * hv c5 + hv c6 : ℕ) : ℤ) (F64.mk 0 0) =
      some (F64.mk ((16 * hv c5 + hv c6 : ℕ) : ℤ) 0) :=
    lightenFloat_zero _ (by positivity) (by exact_mod_cast hb3)
  have hd1 : darkenFloat ((16 * hv c1 + hv c2 : ℕ) : ℤ) (F64.mk 0 0) =
      some (F64.mk ((16 * hv c1 + hv c2 : ℕ) : ℤ) 0) :=
    darkenFloat_zero _ (by positivity) (by exact_mod_cast hb1)
  have hd2 : darkenFloat ((16 * hv c3 + hv c4 : ℕ) : ℤ) (F64.mk 0 0) =
      some (F64.mk ((16 * hv c3 + hv c4 : ℕ) : ℤ) 0) :=
    darkenFloat_zero _ (by positivity) (by exact_mod_cast hb2)
  have hd3 : darkenFloat ((16 * hv c5 + hv c6 : ℕ) : ℤ) (F64.mk 0 0) =
      some (F64.mk ((16 * hv c5 + hv c6 : ℕ) : ℤ) 0) :=
    darkenFloat_zero _ (by positivity) (by exact_mod_cast hb3)
  constructor
  · simp only [_lighten, hrgb, hparse, hl1, hl2, hl3, _rgb_to_hex, truncIntF64_exp0]
    rw [hex2_pair c1 c2 h1 h2, hex2_pair c3 c4 h3 h4, hex2_pair c5 c6 h5 h6, hupper]
  · simp only [_darken, hrgb, hparse, hd1, hd2, hd3, _rgb_to_hex, truncIntF64_exp0]
    rw [hex2_pair c1 c2 h1 h2, hex2_pair c3 c4 h3 h4, hex2_pair c5 c6 h5 h6, hupper]

/-- C8 witness: the zero-amount identity at the mixed-case input
`#1a2B3c`. -/
theorem C8_zero_identity_witness :
    _lighten (String.mk [ '#', '1', 'a', '2', 'B', '3', 'c' ]) "0%" =
        Except.ok (pyUpper (String.mk [ '#', '1', 'a', '2', 'B', '3', 'c' ])) ∧
      _darken (String.mk [ '#', '1', 'a', '2', 'B', '3', 'c' ]) "0%" =
        Except.ok (pyUpper (String.mk [ '#', '1', 'a', '2', 'B', '3', 'c' ])) :=
  C8_zero_identity '1' 'a' '2' 'B' '3' 'c' (by decide) (by decide) (by decide) (by decide)
    (by decide) (by decide)
